import Mathlib

/-!
Shallow embedding of the rhythm-analysis core of the guitar rhythm analyzer:
onset peak picking, onset refinement (energy filter, non-empty fallback,
adaptive minimum-separation merge, re-indexing), tempo handling, and the
grid classifier with its timing statistics.  Sample values and times are
rationals; JavaScript Math.floor and Math.round are modelled by Int.floor
and jround below.  The z-scored novelty curve and the smoothed envelope,
whose computation involves real-valued square roots and powers, enter the
peak picker as explicit array arguments.
-/

namespace RhythmCore

attribute [local semireducible] List.merge List.mergeSort

/-- An onset event: a timestamp in seconds and a dense positional index. -/
structure OnsetData where
  time : ℚ
  index : ℕ
deriving Repr, DecidableEq

/-- An onset carrying its local energy: the `{ time, index, e }` objects
used inside the refiner. -/
structure StrongOnset where
  time : ℚ
  index : ℕ
  e : ℚ
deriving Repr, DecidableEq

/-- JavaScript Math.round: round half toward positive infinity. -/
def jround (q : ℚ) : ℤ := ⌊q + 1/2⌋

/-- The 180 ms refractory period in samples: Math.floor(sr * 0.18). -/
def minSepSamples (sr : ℕ) : ℕ := 18 * sr / 100

/-- The ±20 ms peak-refinement radius in samples: Math.floor(sr * 0.02). -/
def refineSamples (sr : ℕ) : ℕ := 2 * sr / 100

/-- The peak-pick threshold on the z-scored novelty. -/
def zThresh : ℚ := 4/5

/-- Peak-position refinement: snap peak i to the position of the largest
envelope value in the window from i - refine to i + refine, scanning left
to right with strict improvement. -/
def refinePeak (env : Array ℚ) (sr i : ℕ) : ℕ :=
  let refine := refineSamples sr
  let i0 := i - refine
  let i1 := min (env.size - 1) (i + refine)
  (List.range' i0 (i1 + 1 - i0)).foldl
    (fun best j => if env.getD best 0 < env.getD j 0 then j else best) i

/-- The peak-picking loop of detectOnsets: scan positions 1 ≤ i < z.size - 1;
accept a position where z exceeds the threshold and is a local maximum, at
least minSep samples after the previously accepted raw peak; emit the
refined envelope peak as an onset with the next sequential index. -/
def detectAux (z env : Array ℚ) (sr : ℕ) : ℕ → ℕ → ℤ → ℕ → List OnsetData
  | 0, _, _, _ => []
  | fuel + 1, i, last, idx =>
    if i + 1 < z.size then
      if zThresh < z.getD i 0 ∧ z.getD (i - 1) 0 ≤ z.getD i 0 ∧ z.getD (i + 1) 0 ≤ z.getD i 0 then
        if (i : ℤ) - last < (minSepSamples sr : ℤ) then
          detectAux z env sr fuel (i + 1) last idx
        else
          ⟨((refinePeak env sr i : ℕ) : ℚ) / (sr : ℚ), idx⟩ ::
            detectAux z env sr fuel (i + 1) (i : ℤ) (idx + 1)
      else
        detectAux z env sr fuel (i + 1) last idx
    else []

/-- The onset detector applied to the z-scored novelty and the envelope.
The fuel argument of detectAux only bounds the scan; starting it at z.size
lets the loop run to the end of the signal exactly as the source does. -/
def detectOnsets (z env : Array ℚ) (sr : ℕ) : List OnsetData :=
  detectAux z env sr z.size 1 (-(minSepSamples sr : ℤ)) 0

/-- The ±20 ms local-energy window in samples: Math.max(1, Math.floor(sr * 0.020)). -/
def winSamples (sr : ℕ) : ℕ := max 1 (2 * sr / 100)

/-- Mean absolute sample value within ±20 ms of time t. -/
def localEnergy (data : List ℚ) (sr : ℕ) (t : ℚ) : ℚ :=
  let win : ℤ := (winSamples sr : ℤ)
  let c : ℤ := ⌊t * (sr : ℚ)⌋
  let i0 : ℤ := max 0 (c - win)
  let i1 : ℤ := min ((data.length : ℤ) - 1) (c + win)
  (((List.range' i0.toNat (i1 + 1 - i0).toNat).map (fun i => |data.getD i 0|)).sum) /
    ((i1 - i0 + 1 : ℤ) : ℚ)

/-- The local energies of all onsets. -/
def energiesOf (data : List ℚ) (sr : ℕ) (onsets : List OnsetData) : List ℚ :=
  onsets.map (fun o => localEnergy data sr o.time)

/-- Robust energy threshold: median + 2 * MAD of the local energies, with
out-of-range indexing defaulting to 0 as in the source. -/
def eThreshOf (es : List ℚ) : ℚ :=
  let sorted := es.mergeSort (fun a b => decide (a ≤ b))
  let med := sorted.getD (sorted.length / 2) 0
  let devs := (sorted.map (fun v => |v - med|)).mergeSort (fun a b => decide (a ≤ b))
  let mad := devs.getD (devs.length / 2) 0
  med + 2 * mad

/-- The strong onsets: those whose local energy reaches the threshold. -/
def strongFilter (data : List ℚ) (sr : ℕ) (onsets : List OnsetData) : List StrongOnset :=
  let es := energiesOf data sr onsets
  let th := eThreshOf es
  (onsets.zip es).filterMap
    (fun p => if th ≤ p.2 then some ⟨p.1.time, p.1.index, p.2⟩ else none)

/-- All onsets paired with their energies, stably sorted by descending
energy (the fallback's tmp array after its first sort). -/
def energyRanked (data : List ℚ) (sr : ℕ) (onsets : List OnsetData) : List StrongOnset :=
  let es := energiesOf data sr onsets
  ((onsets.zip es).map (fun p => (⟨p.1.time, p.1.index, p.2⟩ : StrongOnset))).mergeSort
    (fun a b => decide (b.e ≤ a.e))

/-- The fallback when the energy filter removes everything: keep the first
min(8, n) of the energy-ranked onsets and re-sort them by time. -/
def fallbackStrong (data : List ℚ) (sr : ℕ) (onsets : List OnsetData) : List StrongOnset :=
  let tmp := energyRanked data sr onsets
  (tmp.take (min 8 tmp.length)).mergeSort (fun a b => decide (a.time ≤ b.time))

/-- The strong-onset list entering the merge step: the filtered onsets, or
the fallback when the filter emptied a non-empty input. -/
def strongList (data : List ℚ) (sr : ℕ) (onsets : List OnsetData) : List StrongOnset :=
  let s := strongFilter data sr onsets
  if s = [] ∧ onsets ≠ [] then fallbackStrong data sr onsets else s

/-- Median of the consecutive inter-onset intervals of a time list. -/
def medianIOI (times : List ℚ) : ℚ :=
  let intervals := (times.zip times.tail).map (fun p => p.2 - p.1)
  (intervals.mergeSort (fun a b => decide (a ≤ b))).getD (intervals.length / 2) 0

/-- The adaptive minimum separation of the merge step: derived from the
median inter-onset interval of the strong onsets when at least 3 remain,
from the external tempo when one is supplied, and 0.18 s otherwise. -/
def minSepOf (data : List ℚ) (sr : ℕ) (onsets : List OnsetData) (bpm : Option ℚ) : ℚ :=
  let strong := strongList data sr onsets
  if 3 ≤ strong.length then
    let m := medianIOI (strong.map (fun s => s.time))
    if 0 < m then max (18/100) (min (60/100) ((45/100) * m)) else 18/100
  else
    match bpm with
    | some b => if b = 0 then 18/100 else max (18/100) ((45/100) * (60 / (b * 2)))
    | none => 18/100

/-- The minimum separation exactly as claim C4 words it: with at least 3
strong onsets, clamp(0.45 * medianIOI, 0.18, 0.60); with an external BPM,
max(0.18, 0.45 * (60 / (BPM * 2))); else 0.18. -/
def claimMinSep (data : List ℚ) (sr : ℕ) (onsets : List OnsetData) (bpm : Option ℚ) : ℚ :=
  let strong := strongList data sr onsets
  if 3 ≤ strong.length then
    max (18/100) (min (60/100) ((45/100) * medianIOI (strong.map (fun s => s.time))))
  else
    match bpm with
    | some b => max (18/100) ((45/100) * (60 / (b * 2)))
    | none => 18/100

/-- One step of the merge loop on a reversed accumulator whose head is the
last kept onset: within minSep the stronger of the two survives, the later
one only on strictly greater energy; otherwise the onset is appended. -/
def mergeStep (minSep : ℚ) (racc : List StrongOnset) (o : StrongOnset) : List StrongOnset :=
  match racc with
  | [] => [o]
  | last :: rest =>
    if o.time - last.time < minSep then
      if last.e < o.e then o :: rest else last :: rest
    else o :: last :: rest

/-- The merge loop over the time-ordered strong onsets. -/
def mergeClose (minSep : ℚ) (l : List StrongOnset) : List StrongOnset :=
  (l.foldl (mergeStep minSep) []).reverse

/-- Re-index the surviving onsets 0..N-1 in order. -/
def reindex (l : List StrongOnset) : List OnsetData :=
  l.enum.map (fun p => ⟨p.2.time, p.1⟩)

/-- The onset refiner: energy filter with non-empty fallback, adaptive
minimum-separation merge, and re-indexing. -/
def refineOnsets (data : List ℚ) (sr : ℕ) (onsets : List OnsetData) (bpm : Option ℚ) :
    List OnsetData :=
  reindex (mergeClose (minSepOf data sr onsets bpm) (strongList data sr onsets))

/-- Median inter-onset interval used by the tempo estimator. -/
def medianIntervalOf (onsets : List OnsetData) : ℚ :=
  medianIOI (onsets.map (fun o => o.time))

/-- The tempo before octave correction: Math.round(60 / medianInterval). -/
def rawBPM (onsets : List OnsetData) : ℤ := jround (60 / medianIntervalOf onsets)

/-- The audio tempo estimator: none below 2 onsets; otherwise the rounded
median-interval tempo with one octave correction, doubling below 40 and
halving (with rounding) above 200. -/
def estimateTempo (onsets : List OnsetData) : Option ℤ :=
  if onsets.length < 2 then none
  else
    let bpm := rawBPM onsets
    if bpm < 40 then some (bpm * 2)
    else if 200 < bpm then some (jround ((bpm : ℚ) / 2))
    else some bpm

/-- Tempo resolution of analyzeRhythm: metronomeBPM || 120.  The external
tempo always wins and the audio estimate is never consulted. -/
def finalBPM (metronomeBPM : Option ℚ) : ℚ :=
  match metronomeBPM with
  | some b => if b = 0 then 120 else b
  | none => 120

/-- The optional "-1 bar" offset: shift all onsets one 4-beat bar earlier
and drop those whose time became negative. -/
def applyOffset (onsets : List OnsetData) (bpm : ℚ) (offsetEnabled : Bool) : List OnsetData :=
  if offsetEnabled ∧ bpm ≠ 0 then
    let oneBar := 4 * (60 / bpm)
    (onsets.map (fun o => (⟨o.time - oneBar, o.index⟩ : OnsetData))).filter
      (fun o => decide (0 ≤ o.time))
  else onsets

/-- The immutable result of one analysis run. -/
structure AnalysisResult where
  onsets : List OnsetData
  estimatedBPM : Option ℚ
  duration : ℚ
deriving Repr, DecidableEq

/-- One full analysis run: detect, refine, resolve tempo, optionally apply
the bar offset.  The duration is buffer.duration, samples / rate. -/
def analyzeRhythm (z env : Array ℚ) (data : List ℚ) (sr : ℕ)
    (metronomeBPM : Option ℚ) (offsetEnabled : Bool) : AnalysisResult :=
  let onsets1 := detectOnsets z env sr
  let onsets2 := refineOnsets data sr onsets1 metronomeBPM
  let fbpm := finalBPM metronomeBPM
  { onsets := applyOffset onsets2 fbpm offsetEnabled
    estimatedBPM := some fbpm
    duration := (data.length : ℚ) / (sr : ℚ) }

/-- Which grid an onset aligns with best. -/
inductive Alignment
  | sixteenth
  | triplet
deriving Repr, DecidableEq

/-- An onset augmented with its grid-alignment metrics. -/
structure ClassifiedOnset where
  time : ℚ
  index : ℕ
  isOnBeat : Bool
  isOnSixteenth : Bool
  isOnTriplet : Bool
  sixteenthDeviation : ℚ
  tripletDeviation : ℚ
  bestAlignment : Alignment
deriving Repr, DecidableEq

/-- The 20 ms on-grid tolerance. -/
def tolerance : ℚ := 2/100

/-- Classification of one onset against the sixteenth and triplet grids at
the given beat duration; both grid tests compare the deviation to the
tolerance with a strict less-than. -/
def classifyOnset (secondsPerBeat : ℚ) (o : OnsetData) : ClassifiedOnset :=
  let secondsPerSixteenth := secondsPerBeat / 4
  let nearestSixteenth := (jround (o.time / secondsPerSixteenth) : ℚ) * secondsPerSixteenth
  let sixteenthDeviation := |o.time - nearestSixteenth|
  let secondsPerTriplet := secondsPerBeat / 3
  let nearestTriplet := (jround (o.time / secondsPerTriplet) : ℚ) * secondsPerTriplet
  let tripletDeviation := |o.time - nearestTriplet|
  { time := o.time
    index := o.index
    isOnBeat := decide (sixteenthDeviation < tolerance) || decide (tripletDeviation < tolerance)
    isOnSixteenth := decide (sixteenthDeviation < tolerance)
    isOnTriplet := decide (tripletDeviation < tolerance)
    sixteenthDeviation := sixteenthDeviation
    tripletDeviation := tripletDeviation
    bestAlignment := if sixteenthDeviation < tripletDeviation then .sixteenth else .triplet }

/-- Kinds of grid lines. -/
inductive GridType
  | measure
  | beat
  | eighth
  | sixteenth
deriving Repr, DecidableEq

/-- A display grid line. -/
structure GridLine where
  time : ℚ
  type : GridType
  subdivision : ℕ
  beat : ℕ
  measure : ℕ
deriving Repr, DecidableEq

/-- Grid-line generation; the inner break on time reaching the display
duration is equivalent to filtering because time increases within a beat. -/
def gridLinesOf (bpm displayDuration : ℚ) : List GridLine :=
  let beatsPerSecond := bpm / 60
  let secondsPerBeat := 1 / beatsPerSecond
  let secondsPerSixteenth := secondsPerBeat / 4
  let totalMeasures := (⌈((⌈displayDuration * beatsPerSecond⌉ : ℚ)) / 4⌉).toNat
  (List.range totalMeasures).flatMap (fun measure =>
    (List.range 4).flatMap (fun beat =>
      (List.range 4).filterMap (fun (sixteenth : ℕ) =>
        let time := ((measure * 4 + beat : ℕ) : ℚ) * secondsPerBeat +
          (sixteenth : ℚ) * secondsPerSixteenth
        if time < displayDuration then
          some { time := time
                 type := if sixteenth = 0 ∧ beat = 0 then GridType.measure
                   else if sixteenth = 0 then GridType.beat
                   else if sixteenth = 2 then GridType.eighth
                   else GridType.sixteenth
                 subdivision := sixteenth
                 beat := beat + 1
                 measure := measure + 1 }
        else none)))

/-- The grid view's data: grid lines plus classified visible onsets. -/
structure GridData where
  gridLines : List GridLine
  onsets : List ClassifiedOnset
  duration : ℚ
  secondsPerBeat : ℚ
deriving Repr, DecidableEq

/-- The tempo the grid actually uses: estimatedBPM || 120. -/
def gridBPM (r : AnalysisResult) : ℚ :=
  match r.estimatedBPM with
  | some b => if b = 0 then 120 else b
  | none => 120

/-- Seconds per beat at the grid tempo. -/
def secondsPerBeatOf (r : AnalysisResult) : ℚ := 1 / (gridBPM r / 60)

/-- gridData of the enhanced rhythm grid: none when there are no onsets;
otherwise classify the onsets visible within the 8 s display cap. -/
def gridDataOf (r : AnalysisResult) : Option GridData :=
  if r.onsets = [] then none
  else
    let displayDuration := min r.duration 8
    let secondsPerBeat := secondsPerBeatOf r
    let visibleOnsets := r.onsets.filter (fun o => decide (o.time ≤ displayDuration))
    some { gridLines := gridLinesOf (gridBPM r) displayDuration
           onsets := visibleOnsets.map (classifyOnset secondsPerBeat)
           duration := displayDuration
           secondsPerBeat := secondsPerBeat }

/-- The timing accuracy renderStats shows: on-beat count over the grid's
(visible) onset count, times 100. -/
def timingAccuracyOf (g : GridData) : ℚ :=
  ((g.onsets.filter (fun o => o.isOnBeat)).length : ℚ) / (g.onsets.length : ℚ) * 100

/-- Timing accuracy as claim C9 words it: 100 times the on-beat count over
the total onset count of the result, counting every onset. -/
def claimTimingAccuracy (r : AnalysisResult) : ℚ :=
  100 * ((r.onsets.filter
      (fun o => (classifyOnset (secondsPerBeatOf r) o).isOnBeat)).length : ℚ) /
    (r.onsets.length : ℚ)

/-! ### Lemmas about the merge loop -/

lemma mergeStep_ne_nil (m : ℚ) (racc : List StrongOnset) (o : StrongOnset) :
    mergeStep m racc o ≠ [] := by
  match racc with
  | [] => simp [mergeStep]
  | last :: rest =>
    simp only [mergeStep]
    split
    · split <;> simp
    · simp

lemma foldl_mergeStep_ne_nil (m : ℚ) :
    ∀ (l racc : List StrongOnset), racc ≠ [] → l.foldl (mergeStep m) racc ≠ []
  | [], _, h => h
  | o :: l, racc, _ => by
    rw [List.foldl_cons]
    exact foldl_mergeStep_ne_nil m l _ (mergeStep_ne_nil m racc o)

lemma mergeClose_ne_nil (m : ℚ) (l : List StrongOnset) (h : l ≠ []) :
    mergeClose m l ≠ [] := by
  unfold mergeClose
  rw [Ne, List.reverse_eq_nil_iff]
  match l, h with
  | o :: l, _ =>
    rw [List.foldl_cons]
    exact foldl_mergeStep_ne_nil m l _ (mergeStep_ne_nil m [] o)

lemma mem_mergeStep (m : ℚ) (racc : List StrongOnset) (o a : StrongOnset)
    (ha : a ∈ mergeStep m racc o) : a = o ∨ a ∈ racc := by
  match racc with
  | [] =>
    simp [mergeStep] at ha
    exact Or.inl ha
  | last :: rest =>
    simp only [mergeStep] at ha
    split at ha
    · split at ha
      · rcases List.mem_cons.mp ha with h | h
        · exact Or.inl h
        · exact Or.inr (List.mem_cons_of_mem _ h)
      · exact Or.inr ha
    · rcases List.mem_cons.mp ha with h | h
      · exact Or.inl h
      · exact Or.inr h

lemma foldl_mergeStep_chain (m : ℚ) :
    ∀ (l racc : List StrongOnset),
      List.Chain' (fun a b => m ≤ a.time - b.time) racc →
      (∀ a ∈ racc, ∀ b ∈ l, a.time ≤ b.time) →
      List.Pairwise (fun a b => a.time ≤ b.time) l →
      List.Chain' (fun a b => m ≤ a.time - b.time) (l.foldl (mergeStep m) racc)
  | [], _, hc, _, _ => hc
  | o :: l, racc, hc, hb, hp => by
    rw [List.foldl_cons]
    have hp' := List.pairwise_cons.mp hp
    refine foldl_mergeStep_chain m l (mergeStep m racc o) ?_ ?_ hp'.2
    · match racc, hc with
      | [], _ => simp [mergeStep]
      | last :: rest, hc =>
        have hlo : last.time ≤ o.time := hb last (by simp) o (by simp)
        simp only [mergeStep]
        split
        · split
          · match rest, hc with
            | [], _ => simp
            | r2 :: t2, hc =>
              have h12 := (List.chain'_cons.mp hc).1
              rw [List.chain'_cons]
              exact ⟨by linarith, (List.chain'_cons.mp hc).2⟩
          · exact hc
        · rename_i hgap
          rw [List.chain'_cons]
          exact ⟨by linarith [not_lt.mp hgap], hc⟩
    · intro a ha b hbmem
      have hob : o.time ≤ b.time := hp'.1 b hbmem
      rcases mem_mergeStep m racc o a ha with rfl | hmem
      · exact hob
      · exact le_trans (hb a hmem o (by simp)) hob

lemma mergeClose_chain (m : ℚ) (l : List StrongOnset)
    (hp : List.Pairwise (fun a b => a.time ≤ b.time) l) :
    List.Chain' (fun a b => m ≤ b.time - a.time) (mergeClose m l) := by
  unfold mergeClose
  rw [List.chain'_reverse]
  exact foldl_mergeStep_chain m l [] (by simp) (by simp) hp

/-! ### Claims C10, C1, C2, C8 -/

/-- C10: in the merge step, a later onset within the minimum separation of
the last kept onset replaces it only on strictly greater energy; on an
exact energy tie the earlier onset is kept. -/
theorem claim_C10 : ∀ (a b : StrongOnset) (m : ℚ), b.time - a.time < m →
    (b.e ≤ a.e → mergeClose m [a, b] = [a]) ∧
    (a.e < b.e → mergeClose m [a, b] = [b]) := by
  intro a b m hgap
  constructor
  · intro he
    simp [mergeClose, mergeStep, hgap, not_lt.mpr he]
  · intro he
    simp [mergeClose, mergeStep, hgap, he]

theorem claim_C10_witness :
    ((⟨1/4, 1, 5⟩ : StrongOnset).time - (⟨0, 0, 5⟩ : StrongOnset).time < 1/2) ∧
    mergeClose (1/2) [⟨0, 0, 5⟩, ⟨1/4, 1, 5⟩] = [⟨0, 0, 5⟩] :=
  ⟨by norm_num, (claim_C10 ⟨0, 0, 5⟩ ⟨1/4, 1, 5⟩ (1/2) (by norm_num)).1 (by norm_num)⟩

/-- C1: when an external (metronome) tempo is supplied, the analysis
result's estimatedBPM is exactly that value, whatever the signal and the
onsets; the audio-derived estimate is never consulted. -/
theorem claim_C1 : ∀ (z env : Array ℚ) (data : List ℚ) (sr : ℕ) (b : ℚ) (offs : Bool),
    0 < b → (analyzeRhythm z env data sr (some b) offs).estimatedBPM = some b := by
  intro z env data sr b offs hb
  simp [analyzeRhythm, finalBPM, hb.ne']

theorem claim_C1_witness :
    (0 : ℚ) < 100 ∧ (analyzeRhythm #[] #[] [] 1 (some 100) false).estimatedBPM = some 100 :=
  ⟨by norm_num, claim_C1 #[] #[] [] 1 100 false (by norm_num)⟩

/-- C2 as stated is false on the code: with zero onsets and no external
tempo, the analysis still reports estimatedBPM = 120 (the default), not an
absent value, and the grid analyzer returns no grid data at all. -/
theorem claim_C2_counterexample :
    (analyzeRhythm #[] #[] [] 1 none false).onsets = [] ∧
    (analyzeRhythm #[] #[] [] 1 none false).estimatedBPM = some 120 ∧
    (analyzeRhythm #[] #[] [] 1 none false).estimatedBPM ≠ none ∧
    gridDataOf (analyzeRhythm #[] #[] [] 1 none false) = none := by
  refine ⟨rfl, rfl, by simp [analyzeRhythm, finalBPM], rfl⟩

/-- C2 amended: with no external tempo and zero detected onsets the
analysis completes and yields estimatedBPM = 120, the default, and the
grid analyzer yields none (no classified list and no accuracy figure at
all, hence no NaN). -/
theorem claim_C2 : ∀ (z env : Array ℚ) (data : List ℚ) (sr : ℕ) (offs : Bool),
    (analyzeRhythm z env data sr none offs).onsets = [] →
    (analyzeRhythm z env data sr none offs).estimatedBPM = some 120 ∧
    gridDataOf (analyzeRhythm z env data sr none offs) = none := by
  intro z env data sr offs h
  constructor
  · simp [analyzeRhythm, finalBPM]
  · simp [gridDataOf, h]

theorem claim_C2_witness :
    (analyzeRhythm #[] #[] [] 1 none true).onsets = [] ∧
    ((analyzeRhythm #[] #[] [] 1 none true).estimatedBPM = some 120 ∧
      gridDataOf (analyzeRhythm #[] #[] [] 1 none true) = none) :=
  ⟨rfl, claim_C2 #[] #[] [] 1 true rfl⟩

/-- C8: the on-grid tests are strict: deviation exactly 0 classifies as on
the sixteenth (or triplet) grid, deviation exactly at the 20 ms tolerance
classifies as off it, and isOnBeat is the disjunction of the two tests. -/
theorem claim_C8 : ∀ (spb : ℚ) (o : OnsetData),
    ((classifyOnset spb o).sixteenthDeviation = 0 →
      (classifyOnset spb o).isOnSixteenth = true) ∧
    ((classifyOnset spb o).sixteenthDeviation = tolerance →
      (classifyOnset spb o).isOnSixteenth = false) ∧
    ((classifyOnset spb o).tripletDeviation = 0 →
      (classifyOnset spb o).isOnTriplet = true) ∧
    ((classifyOnset spb o).tripletDeviation = tolerance →
      (classifyOnset spb o).isOnTriplet = false) ∧
    (classifyOnset spb o).isOnBeat =
      ((classifyOnset spb o).isOnSixteenth || (classifyOnset spb o).isOnTriplet) := by
  intro spb o
  refine ⟨?_, ?_, ?_, ?_, rfl⟩
  · intro h
    show decide ((classifyOnset spb o).sixteenthDeviation < tolerance) = true
    rw [h]
    norm_num [tolerance]
  · intro h
    show decide ((classifyOnset spb o).sixteenthDeviation < tolerance) = false
    rw [h]
    simp
  · intro h
    show decide ((classifyOnset spb o).tripletDeviation < tolerance) = true
    rw [h]
    norm_num [tolerance]
  · intro h
    show decide ((classifyOnset spb o).tripletDeviation < tolerance) = false
    rw [h]
    simp

theorem claim_C8_witness :
    ((classifyOnset (1/2) ⟨0, 0⟩).sixteenthDeviation = 0 ∧
      (classifyOnset (1/2) ⟨0, 0⟩).isOnSixteenth = true) ∧
    ((classifyOnset (1/2) ⟨13/25, 0⟩).sixteenthDeviation = tolerance ∧
      (classifyOnset (1/2) ⟨13/25, 0⟩).isOnSixteenth = false) := by
  have h1 : (classifyOnset (1/2) ⟨0, 0⟩).sixteenthDeviation = 0 := by
    norm_num [classifyOnset, jround]
  have h2 : (classifyOnset (1/2) ⟨13/25, 0⟩).sixteenthDeviation = tolerance := by
    norm_num [classifyOnset, jround, tolerance]
  exact ⟨⟨h1, (claim_C8 (1/2) ⟨0, 0⟩).1 h1⟩, ⟨h2, (claim_C8 (1/2) ⟨13/25, 0⟩).2.1 h2⟩⟩

/-! ### Claims C6 and C7: the tempo estimator -/

/-- C6 as stated is false on the code: a single octave correction does not
always land in [40, 300].  Two onsets 4 s apart give a raw tempo of 15 BPM,
doubled once to 30, which is still below 40. -/
theorem claim_C6_counterexample :
    estimateTempo [⟨0, 0⟩, ⟨4, 1⟩] = some 30 ∧ ¬ (40 ≤ (30 : ℤ)) := by
  refine ⟨?_, by omega⟩
  have hm : medianIntervalOf [⟨0, 0⟩, ⟨4, 1⟩] = 4 := by
    simp [medianIntervalOf, medianIOI]
  have hr : rawBPM [⟨0, 0⟩, ⟨4, 1⟩] = 15 := by
    rw [rawBPM, hm, jround]
    norm_num
  simp [estimateTempo, hr]

/-- C6 amended: whenever the estimate is produced it is
round(60/medianInterval) with at most one doubling or halving, and it is a
positive integer within [40, 300] whenever that raw rounded tempo lies in
[20, 600]; outside that raw range a single correction can leave the result
below 40 or above 300. -/
theorem claim_C6 : ∀ onsets : List OnsetData, 2 ≤ onsets.length →
    20 ≤ rawBPM onsets → rawBPM onsets ≤ 600 →
    ∃ b, estimateTempo onsets = some b ∧ 0 < b ∧ 40 ≤ b ∧ b ≤ 300 := by
  intro onsets hlen h20 h600
  have hnotlt : ¬ onsets.length < 2 := not_lt.mpr hlen
  by_cases h40 : rawBPM onsets < 40
  · exact ⟨rawBPM onsets * 2, by simp [estimateTempo, hnotlt, h40], by omega, by omega, by omega⟩
  · by_cases h200 : 200 < rawBPM onsets
    · refine ⟨jround ((rawBPM onsets : ℚ) / 2), by simp [estimateTempo, hnotlt, h40, h200],
        ?_, ?_, ?_⟩
      · rw [jround]
        have : (101 : ℤ) ≤ ⌊(rawBPM onsets : ℚ) / 2 + 1/2⌋ := by
          rw [Int.le_floor]
          push_cast
          have : (201 : ℚ) ≤ (rawBPM onsets : ℚ) := by exact_mod_cast h200
          linarith
        omega
      · rw [jround]
        have : (101 : ℤ) ≤ ⌊(rawBPM onsets : ℚ) / 2 + 1/2⌋ := by
          rw [Int.le_floor]
          push_cast
          have : (201 : ℚ) ≤ (rawBPM onsets : ℚ) := by exact_mod_cast h200
          linarith
        omega
      · rw [jround]
        have : ⌊(rawBPM onsets : ℚ) / 2 + 1/2⌋ < 301 := by
          rw [Int.floor_lt]
          push_cast
          have : (rawBPM onsets : ℚ) ≤ (600 : ℚ) := by exact_mod_cast h600
          linarith
        omega
    · exact ⟨rawBPM onsets, by simp [estimateTempo, hnotlt, h40, h200], by omega, by omega,
        by omega⟩

theorem claim_C6_witness :
    2 ≤ ([⟨0, 0⟩, ⟨1/2, 1⟩] : List OnsetData).length ∧
    20 ≤ rawBPM [⟨0, 0⟩, ⟨1/2, 1⟩] ∧ rawBPM [⟨0, 0⟩, ⟨1/2, 1⟩] ≤ 600 ∧
    ∃ b, estimateTempo [⟨0, 0⟩, ⟨1/2, 1⟩] = some b ∧ 0 < b ∧ 40 ≤ b ∧ b ≤ 300 := by
  have hm : medianIntervalOf [⟨0, 0⟩, ⟨1/2, 1⟩] = 1/2 := by
    simp [medianIntervalOf, medianIOI]
  have hr : rawBPM [⟨0, 0⟩, ⟨1/2, 1⟩] = 120 := by
    rw [rawBPM, hm, jround]
    norm_num
  exact ⟨by norm_num, by rw [hr]; omega, by rw [hr]; omega,
    claim_C6 [⟨0, 0⟩, ⟨1/2, 1⟩] (by norm_num) (by rw [hr]; omega) (by rw [hr]; omega)⟩

/-- C7: a median inter-onset interval of 2 s (30 BPM) yields 60 BPM after
doubling and one of 0.25 s (240 BPM) yields 120 BPM after halving; in
general a raw tempo below 40 is doubled and one above 200 is halved with
rounding. -/
theorem claim_C7 :
    estimateTempo [⟨0, 0⟩, ⟨2, 1⟩] = some 60 ∧
    estimateTempo [⟨0, 0⟩, ⟨1/4, 1⟩] = some 120 ∧
    ∀ onsets : List OnsetData, 2 ≤ onsets.length →
      (rawBPM onsets < 40 → estimateTempo onsets = some (rawBPM onsets * 2)) ∧
      (200 < rawBPM onsets → estimateTempo onsets = some (jround ((rawBPM onsets : ℚ) / 2))) := by
  refine ⟨?_, ?_, ?_⟩
  · have hm : medianIntervalOf [⟨0, 0⟩, ⟨2, 1⟩] = 2 := by
      simp [medianIntervalOf, medianIOI]
    have hr : rawBPM [⟨0, 0⟩, ⟨2, 1⟩] = 30 := by
      rw [rawBPM, hm, jround]
      norm_num
    simp [estimateTempo, hr]
  · have hm : medianIntervalOf [⟨0, 0⟩, ⟨1/4, 1⟩] = 1/4 := by
      simp [medianIntervalOf, medianIOI]
    have hr : rawBPM [⟨0, 0⟩, ⟨1/4, 1⟩] = 240 := by
      rw [rawBPM, hm, jround]
      norm_num
    simp only [estimateTempo, hr]
    norm_num [jround]
  · intro onsets hlen
    have hnotlt : ¬ onsets.length < 2 := not_lt.mpr hlen
    constructor
    · intro h40
      simp [estimateTempo, hnotlt, h40]
    · intro h200
      have h40 : ¬ rawBPM onsets < 40 := by omega
      simp [estimateTempo, hnotlt, h40, h200]

theorem claim_C7_witness :
    2 ≤ ([⟨0, 0⟩, ⟨4, 1⟩] : List OnsetData).length ∧
    rawBPM [⟨0, 0⟩, ⟨4, 1⟩] < 40 ∧
    estimateTempo [⟨0, 0⟩, ⟨4, 1⟩] = some (rawBPM [⟨0, 0⟩, ⟨4, 1⟩] * 2) := by
  have hm : medianIntervalOf [⟨0, 0⟩, ⟨4, 1⟩] = 4 := by
    simp [medianIntervalOf, medianIOI]
  have hr : rawBPM [⟨0, 0⟩, ⟨4, 1⟩] = 15 := by
    rw [rawBPM, hm, jround]
    norm_num
  exact ⟨by norm_num, by rw [hr]; omega,
    (claim_C7.2.2 [⟨0, 0⟩, ⟨4, 1⟩] (by norm_num)).1 (by rw [hr]; omega)⟩

/-! ### Claim C9: the aggregate timing accuracy -/

/-- C9 as stated is false on the code: the accuracy divides by the number
of onsets visible within the 8 s display cap, not by all onsets of the
result.  With one on-beat onset at 1 s and one off-grid onset at 9.05 s in
a 10 s result, the code reports 100 while the claimed formula gives 50. -/
theorem claim_C9_counterexample :
    (gridDataOf ⟨[⟨1, 0⟩, ⟨181/20, 1⟩], some 120, 10⟩).map timingAccuracyOf = some 100 ∧
    claimTimingAccuracy ⟨[⟨1, 0⟩, ⟨181/20, 1⟩], some 120, 10⟩ = 50 ∧
    (100 : ℚ) ≠ 50 := by
  have hb1 : (classifyOnset (1/2) ⟨1, 0⟩).isOnBeat = true := by
    norm_num [classifyOnset, jround, tolerance]
  have hb2 : (classifyOnset (1/2) ⟨181/20, 1⟩).isOnBeat = false := by
    norm_num [classifyOnset, jround, tolerance, abs_of_nonneg]
  have hspb : secondsPerBeatOf ⟨[⟨1, 0⟩, ⟨181/20, 1⟩], some 120, 10⟩ = 1/2 := by
    norm_num [secondsPerBeatOf, gridBPM]
  refine ⟨?_, ?_, by norm_num⟩
  · rw [gridDataOf]
    rw [if_neg (by simp)]
    simp only [Option.map_some]
    simp only [timingAccuracyOf, hspb]
    norm_num [List.filter_cons, List.filter_nil, hspb]
    simp only [timingAccuracyOf, List.filter_cons, List.filter_nil, hb1]
    norm_num
  · rw [claimTimingAccuracy, hspb]
    simp only [List.filter_cons, List.filter_nil, hb1, hb2]
    norm_num

/-- C9 amended: the reported timing accuracy equals 100 times the on-beat
count over the onset count restricted to the onsets visible within the 8 s
display cap (time at most min(duration, 8)); onsets beyond the cap are
excluded from both numerator and denominator. -/
theorem claim_C9 : ∀ (r : AnalysisResult) (g : GridData), gridDataOf r = some g →
    timingAccuracyOf g =
      100 * (((r.onsets.filter (fun o => decide (o.time ≤ min r.duration 8))).filter
          (fun o => (classifyOnset (secondsPerBeatOf r) o).isOnBeat)).length : ℚ) /
        ((r.onsets.filter (fun o => decide (o.time ≤ min r.duration 8))).length : ℚ) := by
  intro r g hg
  rw [gridDataOf] at hg
  split at hg
  · exact absurd hg (by simp)
  · rw [Option.some_inj] at hg
    subst hg
    simp only [timingAccuracyOf, List.filter_map, List.length_map, Function.comp_def]
    ring

theorem claim_C9_witness :
    ∃ g, gridDataOf (⟨[⟨1, 0⟩], some 120, 10⟩ : AnalysisResult) = some g ∧
      timingAccuracyOf g =
        100 * ((((⟨[⟨1, 0⟩], some 120, 10⟩ : AnalysisResult).onsets.filter
            (fun o => decide (o.time ≤ min (⟨[⟨1, 0⟩], some 120, 10⟩ : AnalysisResult).duration 8))).filter
            (fun o => (classifyOnset (secondsPerBeatOf ⟨[⟨1, 0⟩], some 120, 10⟩) o).isOnBeat)).length : ℚ) /
          (((⟨[⟨1, 0⟩], some 120, 10⟩ : AnalysisResult).onsets.filter
            (fun o => decide (o.time ≤ min (⟨[⟨1, 0⟩], some 120, 10⟩ : AnalysisResult).duration 8))).length : ℚ) := by
  have hg : ∃ g, gridDataOf (⟨[⟨1, 0⟩], some 120, 10⟩ : AnalysisResult) = some g := by
    rw [gridDataOf, if_neg (by simp)]
    exact ⟨_, rfl⟩
  obtain ⟨g, hg⟩ := hg
  exact ⟨g, hg, claim_C9 _ g hg⟩

/-! ### Lemmas about the strong-onset selection -/

lemma length_energiesOf (data : List ℚ) (sr : ℕ) (onsets : List OnsetData) :
    (energiesOf data sr onsets).length = onsets.length := by
  simp [energiesOf]

lemma length_energyRanked (data : List ℚ) (sr : ℕ) (onsets : List OnsetData) :
    (energyRanked data sr onsets).length = onsets.length := by
  simp [energyRanked, List.length_mergeSort, length_energiesOf]

lemma length_fallbackStrong (data : List ℚ) (sr : ℕ) (onsets : List OnsetData) :
    (fallbackStrong data sr onsets).length = min 8 onsets.length := by
  simp only [fallbackStrong, List.length_mergeSort, List.length_take,
    length_energyRanked]
  omega

lemma pairwise_time_mergeSort (l : List StrongOnset) :
    List.Pairwise (fun a b => a.time ≤ b.time)
      (l.mergeSort (fun a b => decide (a.time ≤ b.time))) := by
  have h := @List.sorted_mergeSort StrongOnset (fun a b : StrongOnset => decide (a.time ≤ b.time))
    (fun a b c h1 h2 => by
      simp only [decide_eq_true_eq] at h1 h2 ⊢
      exact le_trans h1 h2)
    (fun a b => by simpa using le_total a.time b.time) l
  exact h.imp (fun h => by simpa using h)

lemma pairwise_energy_mergeSort (l : List StrongOnset) :
    List.Pairwise (fun a b => b.e ≤ a.e)
      (l.mergeSort (fun a b => decide (b.e ≤ a.e))) := by
  have h := @List.sorted_mergeSort StrongOnset (fun a b : StrongOnset => decide (b.e ≤ a.e))
    (fun a b c h1 h2 => by
      simp only [decide_eq_true_eq] at h1 h2 ⊢
      exact le_trans h2 h1)
    (fun a b => by simpa using le_total b.e a.e) l
  exact h.imp (fun h => by simpa using h)

lemma pairwise_take_drop {α : Type} {R : α → α → Prop} {l : List α}
    (h : List.Pairwise R l) (n : ℕ) :
    ∀ a ∈ l.take n, ∀ b ∈ l.drop n, R a b := by
  have h' : List.Pairwise R (l.take n ++ l.drop n) := by
    rw [List.take_append_drop]
    exact h
  exact (List.pairwise_append.mp h').2.2

lemma pairwise_time_fallbackStrong (data : List ℚ) (sr : ℕ) (onsets : List OnsetData) :
    List.Pairwise (fun a b => a.time ≤ b.time) (fallbackStrong data sr onsets) :=
  pairwise_time_mergeSort _

lemma strongList_eq_fallback {data : List ℚ} {sr : ℕ} {onsets : List OnsetData}
    (hf : strongFilter data sr onsets = []) (h : onsets ≠ []) :
    strongList data sr onsets = fallbackStrong data sr onsets := by
  rw [strongList, if_pos ⟨hf, h⟩]

lemma strongList_ne_nil (data : List ℚ) (sr : ℕ) {onsets : List OnsetData}
    (h : onsets ≠ []) : strongList data sr onsets ≠ [] := by
  rw [strongList]
  split
  · intro hnil
    have hlen := length_fallbackStrong data sr onsets
    rw [hnil] at hlen
    have : onsets.length ≠ 0 := fun h0 => h (List.length_eq_zero.mp h0)
    simp at hlen
    omega
  · rename_i hcond
    intro hs
    exact hcond ⟨hs, h⟩

lemma length_reindex (l : List StrongOnset) : (reindex l).length = l.length := by
  simp [reindex]

lemma refineOnsets_ne_nil (data : List ℚ) (sr : ℕ) {onsets : List OnsetData}
    (bpm : Option ℚ) (h : onsets ≠ []) : refineOnsets data sr onsets bpm ≠ [] := by
  rw [refineOnsets]
  intro hnil
  have hne := mergeClose_ne_nil (minSepOf data sr onsets bpm) (strongList data sr onsets)
    (strongList_ne_nil data sr h)
  have hlen := length_reindex (mergeClose (minSepOf data sr onsets bpm)
    (strongList data sr onsets))
  rw [hnil] at hlen
  exact hne (List.length_eq_zero.mp hlen.symm)

/-! ### Claim C3: the non-empty fallback -/

/-- C3: a non-empty input always refines to a non-empty output; when the
energy filter removes every onset, the kept list is the min(8, n) leading
onsets of the stable energy-descending ranking (so every kept onset's
energy is at least every dropped onset's), re-sorted by time, and it feeds
the merge step. -/
theorem claim_C3 : ∀ (data : List ℚ) (sr : ℕ) (onsets : List OnsetData) (bpm : Option ℚ),
    onsets ≠ [] →
    refineOnsets data sr onsets bpm ≠ [] ∧
    (strongFilter data sr onsets = [] →
      (strongList data sr onsets).length = min 8 onsets.length ∧
      List.Pairwise (fun a b => a.time ≤ b.time) (strongList data sr onsets) ∧
      (strongList data sr onsets).Perm
        ((energyRanked data sr onsets).take (min 8 onsets.length)) ∧
      ∀ a ∈ (energyRanked data sr onsets).take (min 8 onsets.length),
        ∀ b ∈ (energyRanked data sr onsets).drop (min 8 onsets.length), b.e ≤ a.e) := by
  intro data sr onsets bpm h
  refine ⟨refineOnsets_ne_nil data sr bpm h, ?_⟩
  intro hf
  have heq := strongList_eq_fallback hf h
  have hlen : (strongList data sr onsets).length = min 8 onsets.length := by
    rw [heq, length_fallbackStrong]
  refine ⟨hlen, by rw [heq]; exact pairwise_time_fallbackStrong data sr onsets, ?_, ?_⟩
  · rw [heq, fallbackStrong, length_energyRanked]
    exact List.mergeSort_perm _ _
  · intro a ha b hb
    have hdesc : List.Pairwise (fun a b => b.e ≤ a.e) (energyRanked data sr onsets) :=
      pairwise_energy_mergeSort _
    exact pairwise_take_drop hdesc (min 8 onsets.length) a ha b hb

theorem claim_C3_witness :
    ([⟨0, 0⟩] : List OnsetData) ≠ [] ∧ refineOnsets [] 1 [⟨0, 0⟩] none ≠ [] :=
  ⟨by simp, (claim_C3 [] 1 [⟨0, 0⟩] none (by simp)).1⟩

/-! ### Lemmas for the minimum-separation invariant -/

lemma pairwise_zip_fst {l : List OnsetData} (l' : List ℚ)
    (h : List.Pairwise (fun a b => a.time ≤ b.time) l) :
    List.Pairwise (fun p q : OnsetData × ℚ => p.1.time ≤ q.1.time) (l.zip l') := by
  induction l generalizing l' with
  | nil => simp
  | cons a t ih =>
    cases l' with
    | nil => simp
    | cons b t' =>
      rw [List.zip_cons_cons, List.pairwise_cons]
      have h' := List.pairwise_cons.mp h
      exact ⟨fun q hq => h'.1 _ (List.of_mem_zip hq).1, ih t' h'.2⟩

lemma pairwise_time_strongFilter (data : List ℚ) (sr : ℕ) {onsets : List OnsetData}
    (h : List.Pairwise (fun a b => a.time ≤ b.time) onsets) :
    List.Pairwise (fun a b => a.time ≤ b.time) (strongFilter data sr onsets) := by
  rw [strongFilter, List.pairwise_filterMap]
  refine (pairwise_zip_fst (energiesOf data sr onsets) h).imp ?_
  intro p q hpq x hx y hy
  split at hx
  · split at hy
    · rw [Option.mem_some_iff] at hx hy
      rw [← hx, ← hy]
      exact hpq
    · simp at hy
  · simp at hx

lemma pairwise_time_strongList (data : List ℚ) (sr : ℕ) {onsets : List OnsetData}
    (h : List.Pairwise (fun a b => a.time ≤ b.time) onsets) :
    List.Pairwise (fun a b => a.time ≤ b.time) (strongList data sr onsets) := by
  rw [strongList]
  split
  · exact pairwise_time_fallbackStrong data sr onsets
  · exact pairwise_time_strongFilter data sr h

lemma minSepOf_eq_claimMinSep (data : List ℚ) (sr : ℕ) (onsets : List OnsetData)
    (bpm : Option ℚ) : minSepOf data sr onsets bpm = claimMinSep data sr onsets bpm := by
  simp only [minSepOf.eq_def, claimMinSep.eq_def]
  by_cases h3 : 3 ≤ (strongList data sr onsets).length
  · simp only [h3, if_true]
    by_cases hm : 0 < medianIOI ((strongList data sr onsets).map (fun s => s.time))
    · simp [hm]
    · simp only [hm, if_false]
      have hm' : medianIOI ((strongList data sr onsets).map (fun s => s.time)) ≤ 0 :=
        not_lt.mp hm
      have h1 : (45/100 : ℚ) * medianIOI ((strongList data sr onsets).map (fun s => s.time)) ≤ 0 :=
        mul_nonpos_of_nonneg_of_nonpos (by norm_num) hm'
      rw [min_eq_right (by linarith), max_eq_left (by linarith)]
  · simp only [h3, if_false]
    cases bpm with
    | none => rfl
    | some b =>
      by_cases hb : b = 0
      · simp only [hb, if_true]
        norm_num
      · simp [hb]

lemma le_minSepOf (data : List ℚ) (sr : ℕ) (onsets : List OnsetData) (bpm : Option ℚ) :
    (18/100 : ℚ) ≤ minSepOf data sr onsets bpm := by
  simp only [minSepOf.eq_def]
  by_cases h3 : 3 ≤ (strongList data sr onsets).length
  · by_cases hm : 0 < medianIOI ((strongList data sr onsets).map (fun s => s.time))
    · simp [h3, hm]
    · simp [h3, hm]
  · cases bpm with
    | none => simp [h3]
    | some b =>
      by_cases hb : b = 0
      · simp [h3, hb]
      · simp [h3, hb]

lemma times_reindex (l : List StrongOnset) :
    (reindex l).map (fun o => o.time) = l.map (fun s => s.time) := by
  rw [reindex, List.map_map]
  have hc : ((fun o : OnsetData => o.time) ∘
      fun p : ℕ × StrongOnset => (⟨p.2.time, p.1⟩ : OnsetData)) =
      (fun s : StrongOnset => s.time) ∘ Prod.snd := rfl
  rw [hc, ← List.map_map, List.enum_map_snd]

lemma chain_reindex {R : ℚ → ℚ → Prop} {l : List StrongOnset}
    (h : List.Chain' (fun a b => R a.time b.time) l) :
    List.Chain' (fun a b : OnsetData => R a.time b.time) (reindex l) := by
  have h1 : List.Chain' R (l.map (fun s => s.time)) := (List.chain'_map _).mpr h
  rw [← times_reindex] at h1
  exact (List.chain'_map _).mp h1

lemma refineOnsets_chain (data : List ℚ) (sr : ℕ) {onsets : List OnsetData}
    (bpm : Option ℚ) (h : List.Pairwise (fun a b => a.time ≤ b.time) onsets) :
    List.Chain' (fun a b => minSepOf data sr onsets bpm ≤ b.time - a.time)
      (refineOnsets data sr onsets bpm) := by
  rw [refineOnsets]
  exact chain_reindex (R := fun x y => minSepOf data sr onsets bpm ≤ y - x)
    (mergeClose_chain _ _ (pairwise_time_strongList data sr h))

/-! ### Claim C4: the minimum-separation invariant -/

/-- C4: for a time-ordered input, every pair of consecutive refined onsets
is at least the adaptive minimum separation apart, through the
keep-the-stronger replacement included, and that adaptive separation is
exactly the clamp/external-tempo/default formula of the claim. -/
theorem claim_C4 : ∀ (data : List ℚ) (sr : ℕ) (onsets : List OnsetData) (bpm : Option ℚ),
    List.Pairwise (fun a b : OnsetData => a.time ≤ b.time) onsets →
    List.Chain' (fun a b : OnsetData => minSepOf data sr onsets bpm ≤ b.time - a.time)
      (refineOnsets data sr onsets bpm) ∧
    minSepOf data sr onsets bpm = claimMinSep data sr onsets bpm :=
  fun data sr onsets bpm h =>
    ⟨refineOnsets_chain data sr bpm h, minSepOf_eq_claimMinSep data sr onsets bpm⟩

theorem claim_C4_witness :
    List.Pairwise (fun a b : OnsetData => a.time ≤ b.time) [⟨0, 0⟩, ⟨1, 1⟩] ∧
    (List.Chain' (fun a b : OnsetData => minSepOf [] 1 [⟨0, 0⟩, ⟨1, 1⟩] none ≤ b.time - a.time)
       (refineOnsets [] 1 [⟨0, 0⟩, ⟨1, 1⟩] none) ∧
     minSepOf [] 1 [⟨0, 0⟩, ⟨1, 1⟩] none = claimMinSep [] 1 [⟨0, 0⟩, ⟨1, 1⟩] none) :=
  ⟨by norm_num, claim_C4 [] 1 [⟨0, 0⟩, ⟨1, 1⟩] none (by norm_num)⟩

/-! ### Lemmas about the peak picker -/

lemma foldl_best_mem (env : Array ℚ) :
    ∀ (l : List ℕ) (init : ℕ),
      l.foldl (fun best j => if env.getD best 0 < env.getD j 0 then j else best) init ∈
        init :: l
  | [], init => by simp
  | j :: t, init => by
    rw [List.foldl_cons]
    by_cases hc : env.getD init 0 < env.getD j 0
    · rw [if_pos hc]
      have h := foldl_best_mem env t j
      rcases List.mem_cons.mp h with h | h
      · rw [h]
        simp
      · exact List.mem_cons_of_mem _ (List.mem_cons_of_mem _ h)
    · rw [if_neg hc]
      have h := foldl_best_mem env t init
      rcases List.mem_cons.mp h with h | h
      · rw [h]
        simp
      · exact List.mem_cons_of_mem _ (List.mem_cons_of_mem _ h)

lemma refinePeak_bounds (env : Array ℚ) (sr i : ℕ) (h : i + 1 < env.size) :
    i - refineSamples sr ≤ refinePeak env sr i ∧
    refinePeak env sr i ≤ i + refineSamples sr := by
  rw [refinePeak]
  have hi1 : i ≤ min (env.size - 1) (i + refineSamples sr) := le_min (by omega) (by omega)
  have hi1' : min (env.size - 1) (i + refineSamples sr) ≤ i + refineSamples sr :=
    min_le_right _ _
  have hmem := foldl_best_mem env
    (List.range' (i - refineSamples sr)
      (min (env.size - 1) (i + refineSamples sr) + 1 - (i - refineSamples sr))) i
  rcases List.mem_cons.mp hmem with h' | h'
  · rw [h']
    omega
  · rw [List.mem_range'_1] at h'
    omega

lemma minSep_refine_gap (sr : ℕ) (hd : 1 ≤ refineSamples sr) :
    2 * refineSamples sr < minSepSamples sr := by
  rw [minSepSamples]
  rw [refineSamples] at hd ⊢
  have h9 : 9 * (2 * sr / 100) ≤ 9 * (2 * sr) / 100 := Nat.mul_div_le_mul_div_assoc 9 (2 * sr) 100
  have h18 : 9 * (2 * sr) = 18 * sr := by ring
  omega

lemma detectAux_sorted (z env : Array ℚ) (sr : ℕ) (hsr : 1 ≤ sr) (hsz : env.size = z.size) :
    ∀ (fuel : ℕ) (i : ℕ) (last : ℤ) (idx : ℕ),
      List.Chain' (fun a b => a.time < b.time) (detectAux z env sr fuel i last idx) ∧
      ∀ o ∈ detectAux z env sr fuel i last idx,
        ((max (i : ℤ) (last + minSepSamples sr) - refineSamples sr : ℤ) : ℚ) ≤
          o.time * (sr : ℚ) := by
  have hsrQ : (0 : ℚ) < (sr : ℚ) := by exact_mod_cast hsr
  intro fuel
  induction fuel with
  | zero =>
    intro i last idx
    constructor
    · simp [detectAux]
    · intro o ho
      simp [detectAux] at ho
  | succ n ih =>
    intro i last idx
    rw [detectAux]
    by_cases h1 : i + 1 < z.size
    · rw [if_pos h1]
      by_cases h2 : zThresh < z.getD i 0 ∧ z.getD (i - 1) 0 ≤ z.getD i 0 ∧
          z.getD (i + 1) 0 ≤ z.getD i 0
      · rw [if_pos h2]
        by_cases h3 : (i : ℤ) - last < (minSepSamples sr : ℤ)
        · rw [if_pos h3]
          obtain ⟨hc, hb⟩ := ih (i + 1) last idx
          refine ⟨hc, fun o ho => ?_⟩
          have hbo := hb o ho
          have hmono : (max (i : ℤ) (last + minSepSamples sr) - refineSamples sr : ℤ) ≤
              (max ((i : ℤ) + 1) (last + minSepSamples sr) - refineSamples sr : ℤ) := by
            have := max_le_max (by omega : (i : ℤ) ≤ (i : ℤ) + 1)
              (le_refl (last + (minSepSamples sr : ℤ)))
            omega
          have hmq : ((max (i : ℤ) (last + minSepSamples sr) - refineSamples sr : ℤ) : ℚ) ≤
              ((max ((i : ℤ) + 1) (last + minSepSamples sr) - refineSamples sr : ℤ) : ℚ) := by
            exact_mod_cast hmono
          have : ((i : ℤ) + 1) = (((i + 1 : ℕ) : ℤ)) := by push_cast; ring
          rw [this] at hmq
          exact le_trans hmq hbo
        · rw [if_neg h3]
          obtain ⟨hc, hb⟩ := ih (i + 1) (i : ℤ) (idx + 1)
          have h1' : i + 1 < env.size := by rw [hsz]; exact h1
          have hpk := refinePeak_bounds env sr i h1'
          have hlow : ((i : ℤ) - refineSamples sr : ℤ) ≤ (refinePeak env sr i : ℤ) := by omega
          have hhigh : ((refinePeak env sr i : ℤ)) ≤ (i : ℤ) + refineSamples sr := by omega
          have htime : ((refinePeak env sr i : ℕ) : ℚ) / (sr : ℚ) * (sr : ℚ) =
              ((refinePeak env sr i : ℕ) : ℚ) := div_mul_cancel₀ _ (ne_of_gt hsrQ)
          have hlastm : last + (minSepSamples sr : ℤ) ≤ (i : ℤ) := by omega
          have hkey : ((i : ℤ) + refineSamples sr : ℤ) <
              (max ((i : ℤ) + 1) ((i : ℤ) + minSepSamples sr) - refineSamples sr : ℤ) := by
            by_cases hd : 1 ≤ refineSamples sr
            · have hgap := minSep_refine_gap sr hd
              have hle : (i : ℤ) + (minSepSamples sr : ℤ) ≤
                  max ((i : ℤ) + 1) ((i : ℤ) + minSepSamples sr) := le_max_right _ _
              have : (2 * refineSamples sr : ℤ) < (minSepSamples sr : ℤ) := by
                exact_mod_cast hgap
              omega
            · have hd0 : refineSamples sr = 0 := by omega
              have hle : (i : ℤ) + 1 ≤ max ((i : ℤ) + 1) ((i : ℤ) + minSepSamples sr) :=
                le_max_left _ _
              rw [hd0]
              omega
          constructor
          · rw [List.chain'_cons']
            refine ⟨?_, hc⟩
            intro y hy
            have hyb := hb y (List.mem_of_mem_head? hy)
            have hcast : (((i + 1 : ℕ) : ℤ)) = (i : ℤ) + 1 := by push_cast; ring
            rw [hcast] at hyb
            show ((refinePeak env sr i : ℕ) : ℚ) / (sr : ℚ) < y.time
            rw [← mul_lt_mul_right hsrQ, htime]
            have hA : ((refinePeak env sr i : ℕ) : ℚ) ≤ (((i : ℤ) + refineSamples sr : ℤ) : ℚ) := by
              exact_mod_cast hhigh
            have hB : (((i : ℤ) + refineSamples sr : ℤ) : ℚ) <
                ((max ((i : ℤ) + 1) ((i : ℤ) + minSepSamples sr) - refineSamples sr : ℤ) : ℚ) := by
              exact_mod_cast hkey
            linarith
          · intro o ho
            rcases List.mem_cons.mp ho with rfl | ho'
            · show ((max (i : ℤ) (last + minSepSamples sr) - refineSamples sr : ℤ) : ℚ) ≤
                ((refinePeak env sr i : ℕ) : ℚ) / (sr : ℚ) * (sr : ℚ)
              rw [htime]
              have hmax : max (i : ℤ) (last + minSepSamples sr) = (i : ℤ) :=
                max_eq_left hlastm
              rw [hmax]
              exact_mod_cast hlow
            · have hbo := hb o ho'
              have hcast : (((i + 1 : ℕ) : ℤ)) = (i : ℤ) + 1 := by push_cast; ring
              rw [hcast] at hbo
              have hmono : (max (i : ℤ) (last + minSepSamples sr) - refineSamples sr : ℤ) ≤
                  (max ((i : ℤ) + 1) ((i : ℤ) + minSepSamples sr) - refineSamples sr : ℤ) := by
                have := max_le_max (by omega : (i : ℤ) ≤ (i : ℤ) + 1)
                  (by omega : last + (minSepSamples sr : ℤ) ≤ (i : ℤ) + minSepSamples sr)
                omega
              have hmq : ((max (i : ℤ) (last + minSepSamples sr) - refineSamples sr : ℤ) : ℚ) ≤
                  ((max ((i : ℤ) + 1) ((i : ℤ) + minSepSamples sr) - refineSamples sr : ℤ) : ℚ) := by
                exact_mod_cast hmono
              exact le_trans hmq hbo
      · rw [if_neg h2]
        obtain ⟨hc, hb⟩ := ih (i + 1) last idx
        refine ⟨hc, fun o ho => ?_⟩
        have hbo := hb o ho
        have hmono : (max (i : ℤ) (last + minSepSamples sr) - refineSamples sr : ℤ) ≤
            (max ((i : ℤ) + 1) (last + minSepSamples sr) - refineSamples sr : ℤ) := by
          have := max_le_max (by omega : (i : ℤ) ≤ (i : ℤ) + 1)
            (le_refl (last + (minSepSamples sr : ℤ)))
          omega
        have hmq : ((max (i : ℤ) (last + minSepSamples sr) - refineSamples sr : ℤ) : ℚ) ≤
            ((max ((i : ℤ) + 1) (last + minSepSamples sr) - refineSamples sr : ℤ) : ℚ) := by
          exact_mod_cast hmono
        have hcast : ((i : ℤ) + 1) = (((i + 1 : ℕ) : ℤ)) := by push_cast; ring
        rw [hcast] at hmq
        exact le_trans hmq hbo
    · rw [if_neg h1]
      exact ⟨List.chain'_nil, fun o ho => absurd ho (List.not_mem_nil o)⟩

lemma detectOnsets_chain (z env : Array ℚ) (sr : ℕ) (hsr : 1 ≤ sr)
    (hsz : env.size = z.size) :
    List.Chain' (fun a b : OnsetData => a.time < b.time) (detectOnsets z env sr) :=
  (detectAux_sorted z env sr hsr hsz z.size 1 (-(minSepSamples sr : ℤ)) 0).1

lemma chain'_lt_pairwise_le {l : List OnsetData}
    (h : List.Chain' (fun a b : OnsetData => a.time < b.time) l) :
    List.Pairwise (fun a b : OnsetData => a.time ≤ b.time) l := by
  haveI : IsTrans OnsetData (fun a b : OnsetData => a.time < b.time) :=
    ⟨fun _ _ _ h1 h2 => lt_trans h1 h2⟩
  exact (List.chain'_iff_pairwise.mp h).imp le_of_lt

lemma reindex_indices (l : List StrongOnset) :
    (reindex l).map (fun o => o.index) = List.range l.length := by
  rw [reindex, List.map_map]
  have hc : ((fun o : OnsetData => o.index) ∘
      fun p : ℕ × StrongOnset => (⟨p.2.time, p.1⟩ : OnsetData)) =
      (Prod.fst : ℕ × StrongOnset → ℕ) := rfl
  rw [hc, List.enum_map_fst]

lemma refineOnsets_chain_lt (data : List ℚ) (sr : ℕ) {onsets : List OnsetData}
    (bpm : Option ℚ) (h : List.Pairwise (fun a b : OnsetData => a.time ≤ b.time) onsets) :
    List.Chain' (fun a b : OnsetData => a.time < b.time) (refineOnsets data sr onsets bpm) := by
  refine (refineOnsets_chain data sr bpm h).imp ?_
  intro a b hab
  have hms := le_minSepOf data sr onsets bpm
  linarith

lemma applyOffset_chain_lt (onsets : List OnsetData) (bpm : ℚ) (offs : Bool)
    (h : List.Chain' (fun a b : OnsetData => a.time < b.time) onsets) :
    List.Chain' (fun a b : OnsetData => a.time < b.time) (applyOffset onsets bpm offs) := by
  haveI : IsTrans OnsetData (fun a b : OnsetData => a.time < b.time) :=
    ⟨fun _ _ _ h1 h2 => lt_trans h1 h2⟩
  rw [List.chain'_iff_pairwise] at h ⊢
  rw [applyOffset]
  split
  · apply List.Pairwise.filter
    rw [List.pairwise_map]
    exact h.imp (fun hab => sub_lt_sub_right hab _)
  · exact h

/-! ### Claim C5: ordering and dense re-indexing -/

/-- C5: for every analysis run the produced onset list is strictly
ascending by time, and the refiner's output carries the indices 0..N-1 in
time order with no duplicates (its index projection is exactly
List.range N). -/
theorem claim_C5 : ∀ (z env : Array ℚ) (data : List ℚ) (sr : ℕ) (bpm : Option ℚ) (offs : Bool),
    1 ≤ sr → env.size = z.size →
    List.Chain' (fun a b : OnsetData => a.time < b.time)
      ((analyzeRhythm z env data sr bpm offs).onsets) ∧
    (refineOnsets data sr (detectOnsets z env sr) bpm).map (fun o => o.index) =
      List.range (refineOnsets data sr (detectOnsets z env sr) bpm).length := by
  intro z env data sr bpm offs hsr hsz
  have hdet := detectOnsets_chain z env sr hsr hsz
  have hdet_le := chain'_lt_pairwise_le hdet
  have href := refineOnsets_chain_lt data sr bpm hdet_le
  constructor
  · show List.Chain' _ (applyOffset (refineOnsets data sr (detectOnsets z env sr) bpm)
      (finalBPM bpm) offs)
    exact applyOffset_chain_lt _ _ _ href
  · rw [refineOnsets, reindex_indices, length_reindex]

theorem claim_C5_witness :
    1 ≤ 1 ∧ (#[0, 1, 0] : Array ℚ).size = (#[0, 1, 0] : Array ℚ).size ∧
    (List.Chain' (fun a b : OnsetData => a.time < b.time)
        ((analyzeRhythm #[0, 1, 0] #[0, 1, 0] [1] 1 none false).onsets) ∧
      (refineOnsets [1] 1 (detectOnsets #[0, 1, 0] #[0, 1, 0] 1) none).map (fun o => o.index) =
        List.range (refineOnsets [1] 1 (detectOnsets #[0, 1, 0] #[0, 1, 0] 1) none).length) :=
  ⟨le_refl 1, rfl, claim_C5 #[0, 1, 0] #[0, 1, 0] [1] 1 none false (le_refl 1) rfl⟩

end RhythmCore
